import Mathlib

/-!
Verification of the mimalloc-rs allocator core against its specification.

The Rust sources are shallowly embedded: machine integers (`usize`,
`u16`, ...) become `Nat` with explicit `% 2 ^ 64` where wrap-around
matters, pointers become `Nat` addresses, out-parameters become extra
result components, and OS calls (`mmap`) become oracle parameters.
All definitions follow `src/types.rs`, `src/internal.rs`, `src/os.rs`,
`src/segment.rs` and `src/stats.rs` for a 64-bit target
(`target_pointer_width = "64"`).

The file has two parts: first the embedded definitions, then the theorems.
-/

namespace Mimalloc

/-! ### Constants from `src/types.rs` (64-bit target) -/

def MI_INTPTR_SHIFT : Nat := 3

def MI_INTPTR_SIZE : Nat := 1 <<< MI_INTPTR_SHIFT

def MI_SMALL_PAGE_SHIFT : Nat := 13 + MI_INTPTR_SHIFT

def MI_LARGE_PAGE_SHIFT : Nat := 6 + MI_SMALL_PAGE_SHIFT

def MI_SEGMENT_SHIFT : Nat := MI_LARGE_PAGE_SHIFT

def MI_SEGMENT_SIZE : Nat := 1 <<< MI_SEGMENT_SHIFT

def MI_SEGMENT_MASK : Nat := MI_SEGMENT_SIZE - 1

def MI_SMALL_PAGE_SIZE : Nat := 1 <<< MI_SMALL_PAGE_SHIFT

def MI_LARGE_PAGE_SIZE : Nat := 1 <<< MI_LARGE_PAGE_SHIFT

def MI_LARGE_SIZE_MAX : Nat := MI_LARGE_PAGE_SIZE / 8

def MI_MAX_ALIGN_SIZE : Nat := 16

/-- `PAGE_HUGE_ALIGN` from `src/segment.rs`. -/
def PAGE_HUGE_ALIGN : Nat := 256 * 1024

/-- Bit width of `usize` on the modelled 64-bit target. -/
def USIZE_BITS : Nat := 64

/-- `usize::max_value()`. -/
def USIZE_MAX : Nat := 2 ^ USIZE_BITS - 1

/-- `PageKind` from `src/types.rs`. -/
inductive PageKind where
  | PAGE_SMALL
  | PAGE_LARGE
  | PAGE_HUGE
deriving DecidableEq, Repr

/-! ### C1: page-kind dispatch (src/segment.rs:677-689) -/

/-- The three code paths `_segment_page_alloc` can take; the HUGE path
records the `required` size it forwards to `segment_huge_page_alloc`. -/
inductive AllocPath where
  | smallPath
  | largePath
  | hugePath (size : Nat)
deriving DecidableEq, Repr

/-- Dispatch of `_segment_page_alloc` (src/segment.rs:677-689).
`sizeofSegment` stands for the target-dependent `sizeof(segment_t)`. -/
def _segment_page_alloc_path (sizeofSegment blockSize : Nat) : AllocPath :=
  if blockSize < MI_SMALL_PAGE_SIZE / 8 then .smallPath
  else if blockSize < MI_LARGE_SIZE_MAX - sizeofSegment then .largePath
  else .hugePath blockSize

/-- Dispatch as the specification words it: `block_size < SMALL_PAGE_SIZE/8`
is SMALL, else `block_size < LARGE_SIZE_MAX - sizeof(Segment)` is LARGE,
otherwise HUGE with the requested size. -/
def specPageKindDispatch (sizeofSegment blockSize : Nat) : AllocPath :=
  if blockSize < MI_SMALL_PAGE_SIZE / 8 then .smallPath
  else if blockSize < MI_LARGE_SIZE_MAX - sizeofSegment then .largePath
  else .hugePath blockSize

/-! ### C7: free-list link obfuscation (src/internal.rs:152-180) -/

/-- `Block` from `src/types.rs`: the stored (possibly obfuscated) next link. -/
structure Block where
  next : Nat
deriving DecidableEq, Repr

/-- The page fields the embedded operations touch (`src/types.rs::Page`). -/
structure Page where
  segment_idx : Nat
  segment_in_use : Bool
  is_reset : Bool
  capacity : Nat
  reserved : Nat
  cookie : Nat
  used : Nat
  block_size : Nat
deriving DecidableEq, Repr

/-- `block_nextx` (src/internal.rs:152-161); `secure` selects the
`cfg(MI_SECURE)` branch. -/
def block_nextx (secure : Bool) (cookie : Nat) (block : Block) : Nat :=
  if secure then block.next ^^^ cookie else block.next

/-- `block_set_nextx` (src/internal.rs:163-172). -/
def block_set_nextx (secure : Bool) (cookie : Nat) (block : Block) (next : Nat) :
    Block :=
  if secure then { block with next := next ^^^ cookie }
  else { block with next := next }

/-- `block_next` (src/internal.rs:174-176). -/
def block_next (secure : Bool) (page : Page) (block : Block) : Nat :=
  block_nextx secure page.cookie block

/-- `block_set_next` (src/internal.rs:178-180). -/
def block_set_next (secure : Bool) (page : Page) (block : Block) (next : Nat) :
    Block :=
  block_set_nextx secure page.cookie block next

/-! ### C9: overflow-detecting multiply (src/internal.rs:6-13) -/

/-- `MI_MUL_NO_OVERFLOW = 1 << (4 * size_of::<usize>())` with
`size_of::<usize>() = 8` on the 64-bit target. -/
def MI_MUL_NO_OVERFLOW : Nat := 1 <<< (4 * 8)

/-- `mul_overflow` (src/internal.rs:9-13).  `*total = size * count` is a
wrapping `usize` multiply, so the first component carries the product
modulo `2 ^ 64`; the second is the returned boolean. -/
def mul_overflow (size count : Nat) : Nat × Bool :=
  (size * count % 2 ^ USIZE_BITS,
    (decide (MI_MUL_NO_OVERFLOW ≤ size) || decide (MI_MUL_NO_OVERFLOW ≤ count))
      && decide (0 < size) && decide (USIZE_MAX / size < count))

/-! ### C10: statistics counters (src/stats.rs) -/

/-- `StatCount` from `src/types.rs` in a single-threaded run; the `i64`
atomics become `Int` (no wrap-around is exercised by the claim). -/
structure StatCount where
  allocated : Int
  freed : Int
  peak : Int
  current : Int
deriving DecidableEq, Repr

/-- The all-zero initial `StatCount`. -/
def StatCount.zero : StatCount := ⟨0, 0, 0, 0⟩

/-- `_stat_update` (src/stats.rs:12-27), single-threaded.  Note that Rust's
`fetch_add` returns the PREVIOUS value, so the local `current` used by the
peak check is the value before the addition. -/
def _stat_update (stat : StatCount) (amount : Int) : StatCount :=
  if amount = 0 then stat
  else
    let current := stat.current
    let stat := { stat with current := stat.current + amount }
    let stat :=
      if stat.peak < current then { stat with peak := current } else stat
    if 0 < amount then { stat with allocated := stat.allocated + amount }
    else { stat with freed := stat.freed + -amount }

/-- `_stat_increase` (src/stats.rs:4-6). -/
def _stat_increase (stat : StatCount) (amount : Int) : StatCount :=
  _stat_update stat amount

/-- `_stat_decrease` (src/stats.rs:8-10). -/
def _stat_decrease (stat : StatCount) (amount : Int) : StatCount :=
  _stat_update stat (-amount)

/-! ### C2: segment policy in `_segment_page_free` (src/segment.rs:457-508) -/

/-- The segment fields `_segment_page_free` consults. -/
structure Segment2 where
  used : Nat
  abandoned : Nat
  capacity : Nat
  page_kind : PageKind
deriving DecidableEq, Repr

/-- What `_segment_page_free` does to the segment queues after clearing. -/
inductive FreeOutcome where
  | segmentFreed
  | segmentAbandoned
  | enqueuedSmallFree
  | noQueueChange
deriving DecidableEq, Repr

/-- `segment_page_clear` (src/segment.rs:457-483): zero the page except
`segment_idx` and `is_reset`, mark it unused, decrement `segment.used`.
(The `option_page_reset` branch only touches OS memory and stats.) -/
def segment_page_clear (segment : Segment2) (page : Page) : Segment2 × Page :=
  ({ segment with used := segment.used - 1 },
    { segment_idx := page.segment_idx, segment_in_use := false,
      is_reset := page.is_reset, capacity := 0, reserved := 0, cookie := 0,
      used := 0, block_size := 0 })

/-- `_segment_page_free` (src/segment.rs:485-508): clear the page, then
free / abandon / re-enqueue the segment depending on its counts. -/
def _segment_page_free (segment : Segment2) (page : Page) :
    Segment2 × Page × FreeOutcome :=
  let (segment, page) := segment_page_clear segment page
  if segment.used = 0 then (segment, page, .segmentFreed)
  else if segment.used = segment.abandoned then (segment, page, .segmentAbandoned)
  else if segment.used + 1 = segment.capacity then
    (segment, page, .enqueuedSmallFree)
  else (segment, page, .noQueueChange)

/-- The outcome as the specification words it (in terms of the post-clear
segment): free at `used == 0`, abandon at `used == abandoned`, re-enqueue at
`used == capacity - 1` AND kind SMALL, otherwise leave the queues alone. -/
def specFreeOutcome (segment : Segment2) : FreeOutcome :=
  if segment.used = 0 then .segmentFreed
  else if segment.used = segment.abandoned then .segmentAbandoned
  else if segment.used = segment.capacity - 1 ∧ segment.page_kind = .PAGE_SMALL
    then .enqueuedSmallFree
  else .noQueueChange

/-! ### `align_up` (src/os.rs:48-53) and friends -/

/-- `align_up` from `src/os.rs:48-53`. -/
def align_up (size align : Nat) : Nat :=
  let x := size / align * align
  let x := if x < size then x + align else x
  if x < size then 0 else x

/-- `align_up_ptr` from `src/os.rs:59-65`; addresses are `Nat`, and the
computation coincides with `align_up`. -/
def align_up_ptr (ptr align : Nat) : Nat :=
  let x := ptr / align * align
  let x := if x < ptr then x + align else x
  if x < ptr then 0 else x

/-! ### C4: `segment_size` (src/segment.rs:150-178) -/

/-- Out-parameters and result of `segment_size` (src/segment.rs:150-178). -/
structure SegSizeResult where
  pre_size : Nat
  info_size : Nat
  size : Nat
deriving DecidableEq, Repr

/-- `segment_size` (src/segment.rs:150-178).  `szSegment`/`szPage` stand for
the target-dependent `sizeof(segment_t)`/`sizeof(page_t)`; `secure` is
`option_is_enabled(option_secure)` and `osPageSize` is `os_page_size()`. -/
def segment_size (szSegment szPage osPageSize : Nat) (secure : Bool)
    (capacity required : Nat) : SegSizeResult :=
  let minsize := szSegment + (capacity - 1) * szPage + 16
  if !secure then
    let isize :=
      align_up minsize (if 16 > MI_MAX_ALIGN_SIZE then 16 else MI_MAX_ALIGN_SIZE)
    { pre_size := isize + 0, info_size := isize,
      size :=
        if required = 0 then MI_SEGMENT_SIZE
        else align_up (required + isize + 2 * 0) PAGE_HUGE_ALIGN }
  else
    let isize := align_up minsize osPageSize
    let guardsize := osPageSize
    let required := align_up required osPageSize
    { pre_size := isize + guardsize, info_size := isize,
      size :=
        if required = 0 then MI_SEGMENT_SIZE
        else align_up (required + isize + 2 * guardsize) PAGE_HUGE_ALIGN }

/-- `segment_size` as the claim words it: the maximum of `SEGMENT_SIZE` and
`align_up(required + info_size + 2 * guard_size, PAGE_HUGE_ALIGN)`, with
`info_size` the aligned header-plus-page-array size and `guard_size` one OS
page in secure mode and 0 otherwise. -/
def claimSegmentSize (szSegment szPage osPageSize : Nat) (secure : Bool)
    (capacity required : Nat) : Nat :=
  let info := (segment_size szSegment szPage osPageSize secure capacity
    required).info_size
  let guard := if secure then osPageSize else 0
  max MI_SEGMENT_SIZE (align_up (required + info + 2 * guard) PAGE_HUGE_ALIGN)

/-- The amended sizing formula: `SEGMENT_SIZE` when `required == 0` (the
SMALL/LARGE kinds), otherwise `align_up(required + info_size + 2 *
guard_size, PAGE_HUGE_ALIGN)` — not the maximum of the two. -/
def specSegmentSizeAmended (szSegment szPage osPageSize : Nat) (secure : Bool)
    (capacity required : Nat) : Nat :=
  let info := (segment_size szSegment szPage osPageSize secure capacity
    required).info_size
  let guard := if secure then osPageSize else 0
  if required = 0 then MI_SEGMENT_SIZE
  else align_up (required + info + 2 * guard) PAGE_HUGE_ALIGN

/-! ### C3: pointer recovery (src/internal.rs:67-103, src/segment.rs:115-148) -/

/-- The segment fields `_segment_page_start` and pointer recovery use;
`addr` is the segment's base address. -/
structure Segment3 where
  addr : Nat
  page_kind : PageKind
  page_shift : Nat
  segment_size : Nat
  segment_info_size : Nat
  capacity : Nat
deriving DecidableEq, Repr

/-- The data pointer computed by `_segment_page_start`
(src/segment.rs:115-148).  The secure-mode branch only shrinks the
`page_size` out-parameter, never the pointer. -/
def segment_page_start_ptr (segment : Segment3) (page : Page)
    (block_size : Nat) : Nat :=
  let psize := if segment.page_kind = .PAGE_HUGE then segment.segment_size
    else 1 <<< segment.page_shift
  let p := segment.addr + page.segment_idx * psize
  if page.segment_idx = 0 then
    let p := p + segment.segment_info_size
    if 0 < block_size ∧ segment.page_kind = .PAGE_SMALL then
      let adjust := block_size - p % block_size
      if adjust < block_size then p + adjust else p
    else p
  else p

/-- The `page_size` out-parameter of `_segment_page_start`
(src/segment.rs:115-148); the source computes it in the same pass as the
pointer. `secure` is `option_get(option_secure)`, `osPage` is
`os_page_size()`. -/
def segment_page_start_psize (segment : Segment3) (page : Page)
    (block_size secure osPage : Nat) : Nat :=
  let psize0 := if segment.page_kind = .PAGE_HUGE then segment.segment_size
    else 1 <<< segment.page_shift
  let psize1 :=
    if page.segment_idx = 0 then
      let psize := psize0 - segment.segment_info_size
      if 0 < block_size ∧ segment.page_kind = .PAGE_SMALL then
        let p := segment.addr + segment.segment_info_size
        let adjust := block_size - p % block_size
        if adjust < block_size then psize - adjust else psize
      else psize
    else psize0
  if 1 < secure ∨ (secure = 1 ∧ page.segment_idx = segment.capacity - 1) then
    psize1 - osPage
  else psize1

/-- `_segment_page_start` (src/segment.rs:115-148): data pointer and
`page_size` out-parameter. -/
def segment_page_start (segment : Segment3) (page : Page)
    (block_size secure osPage : Nat) : Nat × Nat :=
  (segment_page_start_ptr segment page block_size,
    segment_page_start_psize segment page block_size secure osPage)

/-- `_ptr_segment` (src/internal.rs:67-71): `p & !MI_SEGMENT_MASK` on the
64-bit `usize` (`!mask = 2^64 - 1 - mask`). -/
def ptr_segment (p : Nat) : Nat :=
  p &&& (2 ^ USIZE_BITS - 1 - MI_SEGMENT_MASK)

/-- `_segment_page_of` (src/internal.rs:83-91): the index of the page
containing `p`, computed as `(p - segment) >> segment.page_shift`. -/
def segment_page_of (segment : Segment3) (p : Nat) : Nat :=
  (p - segment.addr) >>> segment.page_shift

/-! ### C8: aligned OS allocation (src/os.rs:252-344) -/

/-- `os_mem_alloc` (src/os.rs:252-274).  The `mmap`/`VirtualAlloc` outcome
is supplied by the oracle `mem` (the alignment passed there is only a hint);
statistics do not affect the returned pointer. -/
def os_mem_alloc (mem : Option Nat) (size : Nat) : Option Nat :=
  if size = 0 then none else mem

/-- `os_mem_alloc_aligned` (src/os.rs:278-344), `cfg(not(windows))` branch.
`mem1` answers the first allocation attempt, `mem2` the over-allocation
retry; freeing the unaligned parts does not change the returned pointer. -/
def os_mem_alloc_aligned (pageSize : Nat) (mem1 mem2 : Option Nat)
    (size align : Nat) : Option Nat :=
  if ¬(pageSize ≤ align ∧ align &&& (align - 1) = 0) then none
  else
    let size := align_up size pageSize
    match os_mem_alloc mem1 size with
    | none => none
    | some p =>
      if p % align ≠ 0 then
        if USIZE_MAX - align ≤ size then none
        else
          let over_size := size + align
          match os_mem_alloc mem2 over_size with
          | none => none
          | some p2 => some (align_up_ptr p2 align)
      else some p

/-! ### C6: reclaiming abandoned segments (src/segment.rs:556-615) -/

/-- A page of an abandoned segment as `_segment_try_reclaim_abandoned`
observes it: whether the slot is in use, and whether all its blocks are
free (`page_all_free`) by reclaim time. -/
structure AbandonedPage where
  in_use : Bool
  all_free : Bool
deriving DecidableEq, Repr

/-- An abandoned segment: its `used` count and its page slots. -/
structure AbandonedSegment where
  used : Nat
  pages : List AbandonedPage
deriving DecidableEq, Repr

/-- The page loop of `_segment_try_reclaim_abandoned`
(src/segment.rs:590-605): each in-use fully-free page is cleared
(`segment_page_clear` decrements `used`); other in-use pages are reclaimed
into the heap.  Returns the segment's `used` count after the loop. -/
def reclaimPages (s : AbandonedSegment) : Nat :=
  s.pages.foldl (fun u p => if p.in_use && p.all_free then u - 1 else u) s.used

/-- The pop loop of `_segment_try_reclaim_abandoned`
(src/segment.rs:568-613): pop from the abandoned stack while fewer than
`atmost` segments have been reclaimed; a popped segment whose pages all
freed is released (`segment_free`), otherwise it counts as reclaimed.
Returns the reclaimed count and the remaining stack. -/
def reclaimLoop (atmost reclaimed : Nat) :
    List AbandonedSegment → Nat × List AbandonedSegment
  | [] => (reclaimed, [])
  | s :: rest =>
    if atmost ≤ reclaimed then (reclaimed, s :: rest)
    else if reclaimPages s = 0 then reclaimLoop atmost reclaimed rest
    else reclaimLoop atmost (reclaimed + 1) rest

/-- `_segment_try_reclaim_abandoned` (src/segment.rs:556-615) on the global
abandoned stack (`abandoned_count` is the stack length).  Returns the
boolean result, the number of reclaimed segments, and the remaining
stack. -/
def _segment_try_reclaim_abandoned (try_all : Bool)
    (stack : List AbandonedSegment) : Bool × Nat × List AbandonedSegment :=
  let abandoned_count := stack.length
  let atmost :=
    if try_all then abandoned_count + 16
    else
      let atmost := abandoned_count / 8
      if atmost < 8 then 8 else atmost
  let r := reclaimLoop atmost 0 stack
  (decide (0 < r.1), r.1, r.2)

/-! ### C5: the per-thread segment cache (src/segment.rs:202-297) -/

def SEGMENT_CACHE_MAX : Nat := 32

def SEGMENT_CACHE_FRACTION : Nat := 8

/-- The cache-related fields of `SegmentsTld` (src/types.rs): the cache
queue as the list of cached segment sizes in queue order (ordered insertion
keeps it ascending), plus the redundant count/size fields the code
maintains and the peak of all segment sizes in use. -/
structure CacheState where
  cache : List Nat
  cache_count : Nat
  cache_size : Nat
  peak_size : Nat
deriving DecidableEq, Repr

/-- The forward scan of `_segment_cache_findx` (src/segment.rs:210-247):
remove the first cached segment of size at least `required`.  Whatever
happens to the removed segment afterwards (returned, shrunk, or OS-freed),
the cache fields are not touched again. -/
def removeFirstGe (required : Nat) : List Nat → Option (Nat × List Nat)
  | [] => none
  | s :: rest =>
    if required ≤ s then some (s, rest)
    else
      match removeFirstGe required rest with
      | none => none
      | some (t, rest') => some (t, s :: rest')

/-- `segment_cache_find` (src/segment.rs:249-251): effect on the cache. -/
def segment_cache_find (st : CacheState) (required : Nat) : CacheState :=
  match removeFirstGe required st.cache with
  | none => st
  | some (s, rest) =>
    { st with
      cache := rest
      cache_count := st.cache_count - 1
      cache_size := st.cache_size - s }

/-- `segment_cache_evict` (src/segment.rs:253-256): `_segment_cache_findx`
with `required = 0` scanning from the end removes the last cached
segment. -/
def segment_cache_evict (st : CacheState) : Option Nat × CacheState :=
  match st.cache.getLast? with
  | none => (none, st)
  | some s =>
    (some s, { st with
      cache := st.cache.dropLast
      cache_count := st.cache_count - 1
      cache_size := st.cache_size - s })

/-- The eviction loop of `segment_cache_full` (src/segment.rs:262-266):
while the cached size exceeds the fraction cap, evict the tail segment and
OS-free it.  Fuel bounds the iterations by the cache length; on a
consistent state the source loop stops no later than that (an empty cache
has size 0, which never exceeds the cap). -/
def evictLoop : Nat → CacheState → CacheState
  | 0, st => st
  | fuel + 1, st =>
    if st.peak_size + 1 ≤ st.cache_size * SEGMENT_CACHE_FRACTION then
      match segment_cache_evict st with
      | (none, st') => st'
      | (some _, st') => evictLoop fuel st'
    else st

/-- `segment_cache_full` (src/segment.rs:258-268). -/
def segment_cache_full (st : CacheState) : CacheState × Bool :=
  if st.cache_count < SEGMENT_CACHE_MAX ∧
      st.cache_size * SEGMENT_CACHE_FRACTION < st.peak_size then (st, false)
  else (evictLoop st.cache.length st, true)

/-- The ordered-insert scan of `segment_cache_insert`
(src/segment.rs:278-283): insert before the first cached segment whose size
is at least the candidate's. -/
def insertSorted (s : Nat) : List Nat → List Nat
  | [] => [s]
  | x :: rest => if x < s then x :: insertSorted s rest else s :: x :: rest

/-- `segment_cache_insert` (src/segment.rs:270-287): drop the candidate if
the cache is full (possibly after eviction), otherwise insert it ordered by
size.  (`option_cache_reset` only touches OS memory and stats.) -/
def segment_cache_insert (st : CacheState) (s : Nat) : CacheState × Bool :=
  match segment_cache_full st with
  | (st', true) => (st', false)
  | (st', false) =>
    ({ st' with
      cache := insertSorted s st'.cache
      cache_count := st'.cache_count + 1
      cache_size := st'.cache_size + s }, true)

/-- The loop of `_segment_thread_collect` (src/segment.rs:290-297):
repeatedly find any cached segment (`required = 0`) and OS-free it.  Fuel
bounds the iterations by the cache length, which is exact: each successful
find removes one element and an empty cache ends the loop. -/
def collectLoop : Nat → CacheState → CacheState
  | 0, st => st
  | fuel + 1, st =>
    match removeFirstGe 0 st.cache with
    | none => st
    | some (s, rest) =>
      collectLoop fuel { st with
        cache := rest
        cache_count := st.cache_count - 1
        cache_size := st.cache_size - s }

/-- `_segment_thread_collect` (src/segment.rs:290-297). -/
def _segment_thread_collect (st : CacheState) : CacheState :=
  collectLoop st.cache.length st

/-- The cache operations named by the claim. -/
inductive CacheOp where
  | insert (s : Nat)
  | find (required : Nat)
  | evictOne
  | collect
deriving DecidableEq, Repr

/-- One cache operation acting on the state. -/
def cacheStep (st : CacheState) : CacheOp → CacheState
  | .insert s => (segment_cache_insert st s).1
  | .find required => segment_cache_find st required
  | .evictOne => (segment_cache_evict st).2
  | .collect => _segment_thread_collect st

/-- A sequence of cache operations. -/
def runCache (ops : List CacheOp) (st : CacheState) : CacheState :=
  ops.foldl cacheStep st

/-- Consistency of a cache state: the redundant count/size fields agree
with the cache list, the list is sorted ascending, and the count cap
holds. -/
def CacheWF (st : CacheState) : Prop :=
  st.cache_count = st.cache.length ∧ st.cache_size = st.cache.sum ∧
  st.cache.Sorted (· ≤ ·) ∧ st.cache_count ≤ SEGMENT_CACHE_MAX

instance (st : CacheState) : Decidable (CacheWF st) := by
  unfold CacheWF
  infer_instance

/-- The cache-cap invariant as the claim states it: at most
`SEGMENT_CACHE_MAX` segments and total cached size at most
`peak_size / SEGMENT_CACHE_FRACTION`. -/
def claimCacheInv (st : CacheState) : Prop :=
  st.cache_count ≤ SEGMENT_CACHE_MAX ∧
  st.cache_size ≤ st.peak_size / SEGMENT_CACHE_FRACTION

instance (st : CacheState) : Decidable (claimCacheInv st) := by
  unfold claimCacheInv
  infer_instance

/-! ## Theorems -/

/-! ### Helper lemmas about `align_up` -/

/-- `align_up` yields a multiple of the alignment. -/
theorem align_up_dvd (size align : Nat) : align ∣ align_up size align := by
  simp only [align_up]
  split
  · split
    · exact dvd_zero _
    · exact Dvd.dvd.add (dvd_mul_left align (size / align)) dvd_rfl
  · exact dvd_mul_left align (size / align)

/-- For positive alignment, `align_up` does not round down. -/
theorem le_align_up (size align : Nat) (h : 0 < align) :
    size ≤ align_up size align := by
  simp only [align_up]
  have hdiv : size / align * align ≤ size := Nat.div_mul_le_self size align
  have hmod := Nat.div_add_mod size align
  have hmlt : size % align < align := Nat.mod_lt size h
  have hcomm : align * (size / align) = size / align * align := Nat.mul_comm _ _
  by_cases hlt : size / align * align < size
  · rw [if_pos hlt]
    have hnot : ¬size / align * align + align < size := by omega
    rw [if_neg hnot]
    omega
  · rw [if_neg hlt, if_neg hlt]
    omega

/-- `align_up` is the least multiple of the alignment reaching the size. -/
theorem align_up_le (size align y : Nat) (hdvd : align ∣ y) (hy : size ≤ y)
    (h : 0 < align) : align_up size align ≤ y := by
  obtain ⟨k, rfl⟩ := hdvd
  simp only [align_up]
  have hdiv : size / align * align ≤ size := Nat.div_mul_le_self size align
  have hcomm : align * k = k * align := Nat.mul_comm _ _
  by_cases hlt : size / align * align < size
  · have hk : size / align + 1 ≤ k := by
      by_contra hge
      push_neg at hge
      have hk2 : k ≤ size / align := by omega
      have h3 : k * align ≤ size / align * align :=
        Nat.mul_le_mul_right align hk2
      omega
    have h5 : (size / align + 1) * align ≤ k * align :=
      Nat.mul_le_mul_right align hk
    have h7 : (size / align + 1) * align = size / align * align + align := by
      rw [Nat.add_mul, Nat.one_mul]
    rw [if_pos hlt]
    split <;> omega
  · rw [if_neg hlt, if_neg hlt]
    omega

/-- Composing alignments: rounding `r` up to a divisor `p` of both the
addend `m` and the final alignment `A` does not change the final rounding. -/
theorem align_up_align_up_add (r m p A : Nat) (hp : 0 < p) (hA : 0 < A)
    (hpA : p ∣ A) (hpm : p ∣ m) :
    align_up (align_up r p + m) A = align_up (r + m) A := by
  apply Nat.le_antisymm
  · apply align_up_le _ _ _ (align_up_dvd _ _) _ hA
    have hdvdp : p ∣ align_up (r + m) A := hpA.trans (align_up_dvd _ _)
    have hge : r + m ≤ align_up (r + m) A := le_align_up _ _ hA
    have hsub : p ∣ align_up (r + m) A - m := Nat.dvd_sub' hdvdp hpm
    have hr : r ≤ align_up (r + m) A - m := by omega
    have := align_up_le r p (align_up (r + m) A - m) hsub hr hp
    omega
  · apply align_up_le _ _ _ (align_up_dvd _ _) _ hA
    have h1 : r ≤ align_up r p := le_align_up _ _ hp
    have h2 : align_up r p + m ≤ align_up (align_up r p + m) A :=
      le_align_up _ _ hA
    omega

/-! ### C1 -/

/-- C1: for every block size, `_segment_page_alloc` dispatches exactly as the
spec states: below `SMALL_PAGE_SIZE/8` it takes the SMALL path, otherwise
below `LARGE_SIZE_MAX - sizeof(Segment)` the LARGE path, otherwise the HUGE
path with the requested size. -/
theorem C1_page_kind_dispatch (sizeofSegment blockSize : Nat) :
    _segment_page_alloc_path sizeofSegment blockSize =
      specPageKindDispatch sizeofSegment blockSize := rfl

/-! ### C7 -/

/-- C7: for every page (hence cookie), block and pointer, reading a link
just written round-trips: `block_next (block_set_next b x) = x`, with
secure-mode XOR encoding both enabled and disabled. -/
theorem C7_block_next_roundtrip (secure : Bool) (page : Page) (block : Block)
    (x : Nat) :
    block_next secure page (block_set_next secure page block x) = x := by
  cases secure <;>
    simp [block_next, block_set_next, block_nextx, block_set_nextx,
      Nat.xor_assoc]

/-! ### C9 -/

/-- C9: `MI_MUL_NO_OVERFLOW` is two to half the word width, and for all
arguments `mul_overflow` returns true exactly when the mathematical product
exceeds `usize::MAX`; when it returns false the written total is the exact
product. -/
theorem C9_mul_overflow_exact (size count : Nat) :
    MI_MUL_NO_OVERFLOW = 2 ^ (USIZE_BITS / 2) ∧
    ((mul_overflow size count).2 = true ↔ USIZE_MAX < size * count) ∧
    ((mul_overflow size count).2 = false →
      (mul_overflow size count).1 = size * count) := by
  refine ⟨rfl, ?_, ?_⟩
  · simp only [mul_overflow, Bool.and_eq_true, Bool.or_eq_true,
      decide_eq_true_eq]
    constructor
    · rintro ⟨⟨-, hpos⟩, hdiv⟩
      have h := (Nat.div_lt_iff_lt_mul hpos).mp hdiv
      rwa [Nat.mul_comm] at h
    · intro h
      have hpos : 0 < size := by
        rcases Nat.eq_zero_or_pos size with h0 | h0
        · simp [h0, USIZE_MAX, USIZE_BITS] at h
        · exact h0
      refine ⟨⟨?_, hpos⟩,
        (Nat.div_lt_iff_lt_mul hpos).mpr (by rwa [Nat.mul_comm] at h)⟩
      by_contra hboth
      push_neg at hboth
      obtain ⟨h1, h2⟩ := hboth
      have : size * count < 2 ^ 32 * 2 ^ 32 :=
        Nat.mul_lt_mul_of_lt_of_lt
          (by simpa [MI_MUL_NO_OVERFLOW] using h1)
          (by simpa [MI_MUL_NO_OVERFLOW] using h2)
      have hmax : (2 : Nat) ^ 32 * 2 ^ 32 = 2 ^ 64 := by norm_num
      simp only [USIZE_MAX, USIZE_BITS] at h
      omega
  · intro hfalse
    have hle : size * count ≤ USIZE_MAX := by
      by_contra hgt
      push_neg at hgt
      have hpos : 0 < size := by
        rcases Nat.eq_zero_or_pos size with h0 | h0
        · simp [h0, USIZE_MAX, USIZE_BITS] at hgt
        · exact h0
      have hguard : MI_MUL_NO_OVERFLOW ≤ size ∨ MI_MUL_NO_OVERFLOW ≤ count := by
        by_contra hboth
        push_neg at hboth
        obtain ⟨h1, h2⟩ := hboth
        have : size * count < 2 ^ 32 * 2 ^ 32 :=
          Nat.mul_lt_mul_of_lt_of_lt
            (by simpa [MI_MUL_NO_OVERFLOW] using h1)
            (by simpa [MI_MUL_NO_OVERFLOW] using h2)
        have hmax : (2 : Nat) ^ 32 * 2 ^ 32 = 2 ^ 64 := by norm_num
        simp only [USIZE_MAX, USIZE_BITS] at hgt
        omega
      have hdiv : USIZE_MAX / size < count :=
        (Nat.div_lt_iff_lt_mul hpos).mpr (by rwa [Nat.mul_comm] at hgt)
      simp only [mul_overflow, Bool.and_eq_true, Bool.or_eq_true,
        decide_eq_true_eq, Bool.and_eq_false_iff, Bool.or_eq_false_iff,
        decide_eq_false_iff_not] at hfalse
      rcases hguard with hg | hg <;> tauto
    simp only [mul_overflow]
    have : size * count < 2 ^ USIZE_BITS := by
      simp only [USIZE_MAX, USIZE_BITS] at hle ⊢
      omega
    exact Nat.mod_eq_of_lt this

/-! ### C2 -/

/-- C2: freeing a fully-free page first clears it (page zeroed, unused,
`segment_idx` and `is_reset` kept, `used` decremented) and then frees,
abandons, or re-enqueues the segment exactly as the spec states.
Hypotheses: the page was in use (so `used ≥ 1`), and non-SMALL segments
hold a single page (as `segment_alloc` establishes). -/
theorem C2_page_free_policy (segment : Segment2) (page : Page)
    (hused : 1 ≤ segment.used)
    (hkind : segment.page_kind ≠ .PAGE_SMALL → segment.capacity ≤ 1) :
    (_segment_page_free segment page).1 =
      { segment with used := segment.used - 1 } ∧
    (_segment_page_free segment page).2.1 =
      { segment_idx := page.segment_idx, segment_in_use := false,
        is_reset := page.is_reset, capacity := 0, reserved := 0, cookie := 0,
        used := 0, block_size := 0 } ∧
    (_segment_page_free segment page).2.2 =
      specFreeOutcome (_segment_page_free segment page).1 := by
  obtain ⟨u0, ab, cap, k⟩ := segment
  dsimp only at hused hkind ⊢
  have h1 : (_segment_page_free ⟨u0, ab, cap, k⟩ page).1 =
      ⟨u0 - 1, ab, cap, k⟩ := by
    simp only [_segment_page_free, segment_page_clear]
    repeat' split
    all_goals rfl
  have h2 : (_segment_page_free ⟨u0, ab, cap, k⟩ page).2.1 =
      ⟨page.segment_idx, false, page.is_reset, 0, 0, 0, 0, 0⟩ := by
    simp only [_segment_page_free, segment_page_clear]
    repeat' split
    all_goals rfl
  refine ⟨h1, h2, ?_⟩
  rw [h1]
  simp only [_segment_page_free, segment_page_clear, specFreeOutcome]
  dsimp only
  by_cases h0 : u0 - 1 = 0
  · rw [if_pos h0, if_pos h0]
  · rw [if_neg h0, if_neg h0]
    by_cases hab : u0 - 1 = ab
    · rw [if_pos hab, if_pos hab]
    · rw [if_neg hab, if_neg hab]
      by_cases hcap : u0 - 1 + 1 = cap
      · have hsmall : k = .PAGE_SMALL := by
          by_contra hne
          have := hkind hne
          omega
        rw [if_pos hcap, if_pos (⟨by omega, hsmall⟩ :
          u0 - 1 = cap - 1 ∧ k = .PAGE_SMALL)]
      · rw [if_neg hcap, if_neg (fun hc : u0 - 1 = cap - 1 ∧ k = .PAGE_SMALL =>
          hcap (by omega))]

/-- C2 witness: a small segment with two used pages out of 64; the
hypotheses hold and the theorem applies. -/
theorem C2_page_free_policy_witness :
    1 ≤ (Segment2.mk 2 0 64 .PAGE_SMALL).used ∧
    ((_segment_page_free (Segment2.mk 2 0 64 .PAGE_SMALL)
        (Page.mk 3 true false 10 10 7 4 16)).2.2 =
      specFreeOutcome
        (_segment_page_free (Segment2.mk 2 0 64 .PAGE_SMALL)
          (Page.mk 3 true false 10 10 7 4 16)).1) :=
  ⟨by decide,
    (C2_page_free_policy (Segment2.mk 2 0 64 .PAGE_SMALL)
      (Page.mk 3 true false 10 10 7 4 16) (by decide)
      (by intro h; exact absurd rfl h)).2.2⟩

/-! ### C4 -/

/-- C4 counterexample: with `sizeof(segment_t) = 104`, `sizeof(page_t) = 80`,
non-secure mode, `capacity = 1` and `required = 524288` (a huge request just
above `LARGE_SIZE_MAX`), the code returns `786432`, while the claimed
`max(SEGMENT_SIZE, ...)` formula yields `4194304`. -/
theorem C4_counterexample :
    (segment_size 104 80 4096 false 1 524288).size = 786432 ∧
    claimSegmentSize 104 80 4096 false 1 524288 = 4194304 ∧
    (segment_size 104 80 4096 false 1 524288).size ≠
      claimSegmentSize 104 80 4096 false 1 524288 := by
  refine ⟨by decide, by decide, by decide⟩

/-- C4 amended: `segment_size(capacity, required)` returns `SEGMENT_SIZE`
when `required == 0` and `align_up(required + info_size + 2 * guard_size,
PAGE_HUGE_ALIGN)` otherwise (guard pages only in secure mode, where the OS
page size is a positive divisor of `PAGE_HUGE_ALIGN`). -/
theorem C4_segment_size_amended (szSegment szPage osPageSize : Nat)
    (secure : Bool) (capacity required : Nat)
    (hos : secure = true → 0 < osPageSize ∧ osPageSize ∣ PAGE_HUGE_ALIGN) :
    (segment_size szSegment szPage osPageSize secure capacity required).size =
      specSegmentSizeAmended szSegment szPage osPageSize secure capacity
        required := by
  cases secure with
  | false => rfl
  | true =>
    obtain ⟨hpos, hdvd⟩ := hos rfl
    simp only [segment_size, specSegmentSizeAmended, Bool.not_true,
      Bool.false_eq_true, if_false, if_true]
    have hzero : align_up required osPageSize = 0 ↔ required = 0 := by
      constructor
      · intro h
        have := le_align_up required osPageSize hpos
        omega
      · intro h
        subst h
        simp [align_up, Nat.zero_div]
    by_cases hreq : required = 0
    · simp [hreq, hzero, align_up, Nat.zero_div]
    · have hne : ¬align_up required osPageSize = 0 := fun h =>
        hreq (hzero.mp h)
      simp only [hne, hreq, if_false]
      have hm : osPageSize ∣
          align_up (szSegment + (capacity - 1) * szPage + 16) osPageSize +
            2 * osPageSize :=
        Dvd.dvd.add (align_up_dvd _ _) (dvd_mul_left osPageSize 2)
      have := align_up_align_up_add required
        (align_up (szSegment + (capacity - 1) * szPage + 16) osPageSize +
          2 * osPageSize)
        osPageSize PAGE_HUGE_ALIGN hpos (by decide) hdvd hm
      rw [Nat.add_assoc (align_up required osPageSize)
          (align_up (szSegment + (capacity - 1) * szPage + 16) osPageSize)
          (2 * osPageSize),
        Nat.add_assoc required
          (align_up (szSegment + (capacity - 1) * szPage + 16) osPageSize)
          (2 * osPageSize)]
      exact this

/-- C4 amended witness: secure mode with 4 KiB OS pages,
`capacity = 1`, `required = 524288`. -/
theorem C4_segment_size_amended_witness :
    ((true : Bool) = true → 0 < 4096 ∧ (4096 : Nat) ∣ PAGE_HUGE_ALIGN) ∧
    (segment_size 104 80 4096 true 1 524288).size =
      specSegmentSizeAmended 104 80 4096 true 1 524288 :=
  ⟨fun _ => ⟨by decide, by decide⟩,
    C4_segment_size_amended 104 80 4096 true 1 524288
      (fun _ => ⟨by decide, by decide⟩)⟩

/-! ### C6 -/

/-- The reclaimed count never exceeds the budget `atmost`. -/
theorem reclaimLoop_le (stack : List AbandonedSegment) :
    ∀ atmost reclaimed, reclaimed ≤ atmost →
      (reclaimLoop atmost reclaimed stack).1 ≤ atmost := by
  induction stack with
  | nil =>
    intro atmost reclaimed h
    simpa [reclaimLoop] using h
  | cons s rest ih =>
    intro atmost reclaimed h
    simp only [reclaimLoop]
    by_cases hle : atmost ≤ reclaimed
    · rw [if_pos hle]
      exact h
    · rw [if_neg hle]
      by_cases hfree : reclaimPages s = 0
      · rw [if_pos hfree]
        exact ih atmost reclaimed h
      · rw [if_neg hfree]
        exact ih atmost (reclaimed + 1) (by omega)

/-- C6: a call with `try_all == false` adopts (reclaims) at most
`max(abandoned_count / 8, 8)` abandoned segments, and its boolean result is
true iff at least one popped segment was adopted into the calling thread
rather than freed. -/
theorem C6_try_reclaim_budget (stack : List AbandonedSegment) :
    (_segment_try_reclaim_abandoned false stack).2.1 ≤
      max (stack.length / 8) 8 ∧
    ((_segment_try_reclaim_abandoned false stack).1 = true ↔
      0 < (_segment_try_reclaim_abandoned false stack).2.1) := by
  have hmax : (if stack.length / 8 < 8 then 8 else stack.length / 8) =
      max (stack.length / 8) 8 := by
    split <;> omega
  constructor
  · simp only [_segment_try_reclaim_abandoned, Bool.false_eq_true, if_false,
      hmax]
    exact reclaimLoop_le stack _ 0 (Nat.zero_le _)
  · simp [_segment_try_reclaim_abandoned]

/-! ### C8 -/

/-- `align_up_ptr` computes the same value as `align_up`. -/
theorem align_up_ptr_eq (ptr align : Nat) :
    align_up_ptr ptr align = align_up ptr align := rfl

/-- C8: for positive OS page size and a positive page-multiple `size`,
`os_mem_alloc_aligned` returns either null or a pointer `p` with
`p % align = 0`; and whenever `align` violates the precondition (power of
two, at least one OS page) it returns null. -/
theorem C8_os_mem_alloc_aligned (pageSize : Nat) (mem1 mem2 : Option Nat)
    (size align : Nat) (hpage : 0 < pageSize) (hsz : 0 < size)
    (hszmul : size % pageSize = 0) :
    (∀ p, os_mem_alloc_aligned pageSize mem1 mem2 size align = some p →
      p % align = 0) ∧
    (¬(pageSize ≤ align ∧ align &&& (align - 1) = 0) →
      os_mem_alloc_aligned pageSize mem1 mem2 size align = none) := by
  constructor
  · intro p hp
    simp only [os_mem_alloc_aligned] at hp
    split at hp
    · exact absurd hp (by simp)
    · rename_i hpre
      rw [not_not] at hpre
      have halign : 0 < align := lt_of_lt_of_le hpage hpre.1
      split at hp
      · exact absurd hp (by simp)
      · rename_i q hq
        split at hp
        · split at hp
          · exact absurd hp (by simp)
          · split at hp
            · exact absurd hp (by simp)
            · rename_i p2 hp2
              have hinj : align_up_ptr p2 align = p := by
                simpa using hp
              rw [← hinj, align_up_ptr_eq]
              exact Nat.mod_eq_zero_of_dvd (align_up_dvd _ _)
        · rename_i hmod
          rw [not_not] at hmod
          have hinj : q = p := by simpa using hp
          rw [← hinj]
          exact hmod
  · intro hbad
    simp only [os_mem_alloc_aligned, if_pos hbad]

/-- C8 witness: 4 KiB pages, `size = 8192`, `align = 4096`; the first
attempt returns the unaligned 5000, the retry returns 7000, and the final
pointer 8192 is aligned. -/
theorem C8_os_mem_alloc_aligned_witness :
    os_mem_alloc_aligned 4096 (some 5000) (some 7000) 8192 4096 = some 8192 ∧
    (8192 : Nat) % 4096 = 0 :=
  ⟨by decide,
    (C8_os_mem_alloc_aligned 4096 (some 5000) (some 7000) 8192 4096
      (by decide) (by decide) (by decide)).1 8192 (by decide)⟩

/-! ### C3 -/

/-- Masking with `!SEGMENT_MASK` recovers a `2^22`-aligned base from any
in-segment offset, on 64-bit addresses. -/
theorem land_high_bits (s off : Nat) (hs : s % 2 ^ 22 = 0)
    (hbound : s + 2 ^ 22 ≤ 2 ^ 64) (hoff : off < 2 ^ 22) :
    (s + off) &&& (2 ^ 64 - 2 ^ 22) = s := by
  obtain ⟨t, rfl⟩ : ∃ t, s = 2 ^ 22 * t := by
    obtain ⟨t, ht⟩ := Nat.dvd_of_mod_eq_zero hs
    exact ⟨t, ht⟩
  apply Nat.eq_of_testBit_eq
  intro i
  rw [Nat.testBit_land]
  have hmaskbit : Nat.testBit (2 ^ 64 - 2 ^ 22) i =
      (decide (i < 64) && !decide (i < 22)) := by
    have h1 : (2 : Nat) ^ 64 - 2 ^ 22 = 2 ^ 64 - ((2 ^ 22 - 1) + 1) := by
      norm_num
    rw [h1, Nat.testBit_two_pow_sub_succ (by norm_num),
      Nat.testBit_two_pow_sub_one]
  rw [hmaskbit]
  by_cases h22 : i < 22
  · have hd : decide (i < 22) = true := by simpa using h22
    have hsi : Nat.testBit (2 ^ 22 * t) i = false := by
      have h := Nat.testBit_mod_two_pow (2 ^ 22 * t) 22 i
      rw [Nat.mul_mod_right, Nat.zero_testBit, hd, Bool.true_and] at h
      exact h.symm
    rw [hd, Bool.not_true, Bool.and_false, Bool.and_false, hsi]
  · by_cases h64 : i < 64
    · have hd22 : decide (i < 22) = false := by simpa using h22
      have hd64 : decide (i < 64) = true := by simpa using h64
      have hi : (2 : Nat) ^ i = 2 ^ 22 * 2 ^ (i - 22) := by
        rw [← pow_add]
        congr 1
        omega
      have h1 : (2 ^ 22 * t + off) / 2 ^ i = t / 2 ^ (i - 22) := by
        rw [hi, ← Nat.div_div_eq_div_mul,
          Nat.mul_add_div (Nat.two_pow_pos 22), Nat.div_eq_of_lt hoff,
          Nat.add_zero]
      have h2 : (2 ^ 22 * t) / 2 ^ i = t / 2 ^ (i - 22) := by
        rw [hi, ← Nat.div_div_eq_div_mul,
          Nat.mul_div_cancel_left t (Nat.two_pow_pos 22)]
      rw [hd22, hd64, Bool.not_false, Bool.and_self, Bool.and_true,
        Nat.testBit_to_div_mod, Nat.testBit_to_div_mod, h1, h2]
    · have hd64 : decide (i < 64) = false := by simpa using h64
      have h64le : (2 : Nat) ^ 64 ≤ 2 ^ i :=
        Nat.pow_le_pow_right (by norm_num) (by omega)
      have hlt2 : 2 ^ 22 * t < 2 ^ i := by omega
      rw [hd64, Bool.false_and, Bool.and_false,
        Nat.testBit_lt_two_pow hlt2]

/-- C3: for every `SEGMENT_SIZE`-aligned segment and page of it, the data
pointer `q` from `segment_page_start` recovers the segment as
`q & !SEGMENT_MASK` and the page index `(q - segment) >> page_shift` equals
`segment_idx`.  The hypotheses reflect segment construction: the base is
aligned and within the address space, the index is within capacity, the
pages fit in the segment, the metadata fits in a page (together with one
block only for SMALL pages, whose start is block-aligned; LARGE and HUGE
blocks may be arbitrarily large), and HUGE segments hold a single page. -/
theorem C3_pointer_recovery (segment : Segment3) (page : Page)
    (block_size secure osPage : Nat)
    (halign : segment.addr % MI_SEGMENT_SIZE = 0)
    (hbound : segment.addr + MI_SEGMENT_SIZE ≤ 2 ^ USIZE_BITS)
    (hidx : page.segment_idx < segment.capacity)
    (hcap : segment.capacity * (1 <<< segment.page_shift) ≤ MI_SEGMENT_SIZE)
    (hinfo : segment.segment_info_size +
      (if segment.page_kind = .PAGE_SMALL then block_size else 0) <
      1 <<< segment.page_shift)
    (hhuge : segment.page_kind = .PAGE_HUGE → segment.capacity = 1) :
    ptr_segment (segment_page_start segment page block_size secure osPage).1 =
      segment.addr ∧
    segment_page_of segment
        (segment_page_start segment page block_size secure osPage).1 =
      page.segment_idx := by
  have hshift1 : (1 <<< segment.page_shift) = 2 ^ segment.page_shift := by
    rw [Nat.shiftLeft_eq, Nat.one_mul]
  have hseg : MI_SEGMENT_SIZE = 2 ^ 22 := by decide
  have hmask : 2 ^ USIZE_BITS - 1 - MI_SEGMENT_MASK = 2 ^ 64 - 2 ^ 22 := by
    decide
  have husize : (2 : Nat) ^ USIZE_BITS = 2 ^ 64 := rfl
  rw [hseg] at halign hcap
  rw [hseg, husize] at hbound
  rw [hshift1] at hcap hinfo
  have hpow : 0 < 2 ^ segment.page_shift := Nat.two_pow_pos _
  have hkcap : 1 ≤ segment.capacity := by omega
  have hq : ∃ extra, segment_page_start_ptr segment page block_size =
      segment.addr + (page.segment_idx * 2 ^ segment.page_shift + extra) ∧
      extra < 2 ^ segment.page_shift := by
    by_cases hidx0 : page.segment_idx = 0
    · have hstart : segment_page_start_ptr segment page block_size =
          (if 0 < block_size ∧ segment.page_kind = .PAGE_SMALL then
            (if block_size -
                (segment.addr + segment.segment_info_size) % block_size <
                block_size then
              segment.addr + segment.segment_info_size +
                (block_size -
                  (segment.addr + segment.segment_info_size) % block_size)
            else segment.addr + segment.segment_info_size)
          else segment.addr + segment.segment_info_size) := by
        simp only [segment_page_start_ptr]
        rw [if_pos hidx0]
        simp only [hidx0, Nat.zero_mul, Nat.add_zero]
      rw [hstart]
      by_cases hsb : 0 < block_size ∧ segment.page_kind = .PAGE_SMALL
      · rw [if_pos hsb.2] at hinfo
        rw [if_pos hsb]
        by_cases hadj : block_size -
            (segment.addr + segment.segment_info_size) % block_size <
            block_size
        · rw [if_pos hadj]
          refine ⟨segment.segment_info_size +
            (block_size -
              (segment.addr + segment.segment_info_size) % block_size),
            ?_, by omega⟩
          rw [hidx0]
          omega
        · rw [if_neg hadj]
          refine ⟨segment.segment_info_size, ?_, by omega⟩
          rw [hidx0]
          omega
      · rw [if_neg hsb]
        refine ⟨segment.segment_info_size, ?_, by omega⟩
        rw [hidx0]
        omega
    · have hkind : segment.page_kind ≠ .PAGE_HUGE := by
        intro hk
        have := hhuge hk
        omega
      refine ⟨0, ?_, hpow⟩
      simp only [segment_page_start_ptr, if_neg hkind, if_neg hidx0, hshift1,
        Nat.add_zero]
  obtain ⟨extra, hqe, hextra⟩ := hq
  have hoff : page.segment_idx * 2 ^ segment.page_shift + extra < 2 ^ 22 := by
    have h1 : (page.segment_idx + 1) * 2 ^ segment.page_shift ≤
        segment.capacity * 2 ^ segment.page_shift :=
      Nat.mul_le_mul_right _ (by omega)
    have h3 : (page.segment_idx + 1) * 2 ^ segment.page_shift =
        page.segment_idx * 2 ^ segment.page_shift + 2 ^ segment.page_shift := by
      rw [Nat.add_mul, Nat.one_mul]
    omega
  constructor
  · show segment_page_start_ptr segment page block_size &&&
      (2 ^ USIZE_BITS - 1 - MI_SEGMENT_MASK) = segment.addr
    rw [hmask, hqe]
    exact land_high_bits _ _ halign hbound hoff
  · show (segment_page_start_ptr segment page block_size - segment.addr) >>>
      segment.page_shift = page.segment_idx
    rw [hqe, Nat.add_sub_cancel_left, Nat.shiftRight_eq_div_pow,
      Nat.mul_comm page.segment_idx (2 ^ segment.page_shift),
      Nat.mul_add_div hpow, Nat.div_eq_of_lt hextra, Nat.add_zero]

/-- C3 witness: a SMALL segment based at `5 * 2^22` (64 pages of shift 16,
info 128, page index 3, block size 16), and a HUGE segment based at
`3 * 2^22` (shift 22, one page) holding a single 8 MiB block — a block far
larger than the page size, as `segment_huge_page_alloc` serves. -/
theorem C3_pointer_recovery_witness :
    ((5 * 2 ^ 22 : Nat) % MI_SEGMENT_SIZE = 0 ∧
      (3 : Nat) < 64 ∧ 64 * (1 <<< 16) ≤ MI_SEGMENT_SIZE ∧
      (128 : Nat) + (if PageKind.PAGE_SMALL = .PAGE_SMALL then 16 else 0) <
        1 <<< 16 ∧
      (128 : Nat) + (if PageKind.PAGE_HUGE = .PAGE_SMALL then 2 ^ 23 else 0) <
        1 <<< 22) ∧
    (ptr_segment (segment_page_start
        ⟨5 * 2 ^ 22, .PAGE_SMALL, 16, 2 ^ 22, 128, 64⟩
        (Page.mk 3 true false 0 0 0 0 16) 16 0 4096).1 = 5 * 2 ^ 22 ∧
      segment_page_of ⟨5 * 2 ^ 22, .PAGE_SMALL, 16, 2 ^ 22, 128, 64⟩
        (segment_page_start ⟨5 * 2 ^ 22, .PAGE_SMALL, 16, 2 ^ 22, 128, 64⟩
          (Page.mk 3 true false 0 0 0 0 16) 16 0 4096).1 = 3) ∧
    (ptr_segment (segment_page_start
        ⟨3 * 2 ^ 22, .PAGE_HUGE, 22, 2 ^ 23 + 2 ^ 18, 128, 1⟩
        (Page.mk 0 true false 0 0 0 0 (2 ^ 23)) (2 ^ 23) 0 4096).1 =
        3 * 2 ^ 22 ∧
      segment_page_of ⟨3 * 2 ^ 22, .PAGE_HUGE, 22, 2 ^ 23 + 2 ^ 18, 128, 1⟩
        (segment_page_start
          ⟨3 * 2 ^ 22, .PAGE_HUGE, 22, 2 ^ 23 + 2 ^ 18, 128, 1⟩
          (Page.mk 0 true false 0 0 0 0 (2 ^ 23)) (2 ^ 23) 0 4096).1 = 0) :=
  ⟨⟨by decide, by decide, by decide, by decide, by decide⟩,
    C3_pointer_recovery ⟨5 * 2 ^ 22, .PAGE_SMALL, 16, 2 ^ 22, 128, 64⟩
      (Page.mk 3 true false 0 0 0 0 16) 16 0 4096 (by decide) (by decide)
      (by decide) (by decide) (by decide)
      (fun h => absurd h (by decide)),
    C3_pointer_recovery ⟨3 * 2 ^ 22, .PAGE_HUGE, 22, 2 ^ 23 + 2 ^ 18, 128, 1⟩
      (Page.mk 0 true false 0 0 0 0 (2 ^ 23)) (2 ^ 23) 0 4096 (by decide)
      (by decide) (by decide) (by decide) (by decide) (fun _ => rfl)⟩

/-! ### C5 -/

/-- Removing the first fitting element shortens, lightens, and thins the
cache list. -/
theorem removeFirstGe_spec (r : Nat) (l : List Nat) :
    ∀ s rest, removeFirstGe r l = some (s, rest) →
      rest.length + 1 = l.length ∧ rest.sum + s = l.sum ∧ rest.Sublist l := by
  induction l with
  | nil =>
    intro s rest h
    simp [removeFirstGe] at h
  | cons x xs ih =>
    intro s rest h
    simp only [removeFirstGe] at h
    split at h
    · simp only [Option.some.injEq, Prod.mk.injEq] at h
      obtain ⟨rfl, rfl⟩ := h
      exact ⟨by simp, by simp [Nat.add_comm], List.sublist_cons_self _ _⟩
    · split at h
      · exact absurd h (by simp)
      · rename_i t rest' heq
        simp only [Option.some.injEq, Prod.mk.injEq] at h
        obtain ⟨rfl, rfl⟩ := h
        obtain ⟨hl, hsum, hsub⟩ := ih _ _ heq
        refine ⟨by simp [← hl], ?_, List.Sublist.cons₂ x hsub⟩
        simp only [List.sum_cons]
        omega

/-- Removing the last element shortens, lightens, and thins the cache
list. -/
theorem getLast_removed_spec (l : List Nat) (s : Nat)
    (h : l.getLast? = some s) :
    l.dropLast.length + 1 = l.length ∧ l.dropLast.sum + s = l.sum ∧
    l.dropLast.Sublist l := by
  have hne : l ≠ [] := by
    intro h0
    subst h0
    simp at h
  have hgl : l.getLast hne = s := by
    rw [List.getLast?_eq_getLast l hne] at h
    simpa using h
  have hdecomp := List.dropLast_append_getLast hne
  refine ⟨?_, ?_, List.dropLast_sublist l⟩
  · conv_rhs => rw [← hdecomp]
    simp
  · conv_rhs => rw [← hdecomp]
    simp [hgl]

/-- `insertSorted` adds one element to the length. -/
theorem insertSorted_length (s : Nat) (l : List Nat) :
    (insertSorted s l).length = l.length + 1 := by
  induction l with
  | nil => rfl
  | cons x xs ih =>
    simp only [insertSorted]
    split
    · simp [ih]
    · simp

/-- `insertSorted` adds the element to the sum. -/
theorem insertSorted_sum (s : Nat) (l : List Nat) :
    (insertSorted s l).sum = l.sum + s := by
  induction l with
  | nil => simp [insertSorted]
  | cons x xs ih =>
    simp only [insertSorted]
    split
    · simp only [List.sum_cons, ih]
      omega
    · simp only [List.sum_cons]
      omega

/-- Members of `insertSorted s l` are `s` or members of `l`. -/
theorem mem_insertSorted (y s : Nat) (l : List Nat)
    (h : y ∈ insertSorted s l) : y = s ∨ y ∈ l := by
  induction l with
  | nil =>
    simp [insertSorted] at h
    simp [h]
  | cons x xs ih =>
    simp only [insertSorted] at h
    split at h
    · rcases List.mem_cons.mp h with h1 | h2
      · right
        simp [h1]
      · rcases ih h2 with h3 | h4
        · left
          exact h3
        · right
          simp [h4]
    · rcases List.mem_cons.mp h with h1 | h2
      · left
        exact h1
      · right
        exact h2

/-- `insertSorted` preserves ascending order. -/
theorem insertSorted_sorted (s : Nat) (l : List Nat)
    (h : l.Sorted (· ≤ ·)) : (insertSorted s l).Sorted (· ≤ ·) := by
  induction l with
  | nil =>
    simp only [insertSorted]
    exact List.sorted_singleton s
  | cons x xs ih =>
    rw [List.sorted_cons] at h
    obtain ⟨hx, hxs⟩ := h
    simp only [insertSorted]
    split
    · rename_i hlt
      rw [List.sorted_cons]
      refine ⟨?_, ih hxs⟩
      intro b hb
      rcases mem_insertSorted b s xs hb with rfl | hbxs
      · omega
      · exact hx b hbxs
    · rename_i hge
      rw [List.sorted_cons]
      refine ⟨?_, by rw [List.sorted_cons]; exact ⟨hx, hxs⟩⟩
      intro b hb
      rcases List.mem_cons.mp hb with rfl | hbxs
      · omega
      · have := hx b hbxs
        omega

/-- `segment_cache_find` preserves consistency and the peak. -/
theorem CacheWF_find (st : CacheState) (required : Nat) (h : CacheWF st) :
    CacheWF (segment_cache_find st required) ∧
    (segment_cache_find st required).peak_size = st.peak_size := by
  obtain ⟨hc, hs, hsort, hcap⟩ := h
  simp only [segment_cache_find]
  split
  · exact ⟨⟨hc, hs, hsort, hcap⟩, rfl⟩
  · rename_i s rest heq
    obtain ⟨hl, hsum, hsub⟩ := removeFirstGe_spec required st.cache _ _ heq
    refine ⟨⟨?_, ?_, ?_, ?_⟩, rfl⟩
    · dsimp only
      omega
    · dsimp only
      omega
    · exact hsort.sublist hsub
    · dsimp only
      omega

/-- `segment_cache_evict` preserves consistency and the peak. -/
theorem CacheWF_evict (st : CacheState) (h : CacheWF st) :
    CacheWF (segment_cache_evict st).2 ∧
    (segment_cache_evict st).2.peak_size = st.peak_size := by
  obtain ⟨hc, hs, hsort, hcap⟩ := h
  simp only [segment_cache_evict]
  split
  · exact ⟨⟨hc, hs, hsort, hcap⟩, rfl⟩
  · rename_i s heq
    obtain ⟨hl, hsum, hsub⟩ := getLast_removed_spec st.cache s heq
    refine ⟨⟨?_, ?_, ?_, ?_⟩, rfl⟩
    · dsimp only
      omega
    · dsimp only
      omega
    · exact hsort.sublist hsub
    · dsimp only
      omega

/-- `evictLoop` preserves consistency and the peak. -/
theorem evictLoop_WF (fuel : Nat) (st : CacheState) (h : CacheWF st) :
    CacheWF (evictLoop fuel st) ∧
    (evictLoop fuel st).peak_size = st.peak_size := by
  induction fuel generalizing st with
  | zero => exact ⟨h, rfl⟩
  | succ n ih =>
    simp only [evictLoop]
    split
    · rcases heq : st.cache.getLast? with _ | s
      · simp only [segment_cache_evict, heq]
        exact ⟨h, by trivial⟩
      · simp only [segment_cache_evict, heq]
        obtain ⟨hc, hs, hsort, hcap⟩ := h
        obtain ⟨hl, hsum, hsub⟩ := getLast_removed_spec st.cache s heq
        have h' : CacheWF { st with
            cache := st.cache.dropLast
            cache_count := st.cache_count - 1
            cache_size := st.cache_size - s } := by
          refine ⟨?_, ?_, ?_, ?_⟩
          · dsimp only
            omega
          · dsimp only
            omega
          · exact hsort.sublist hsub
          · dsimp only
            omega
        obtain ⟨hwf, hpeak⟩ := ih _ h'
        exact ⟨hwf, hpeak⟩
    · exact ⟨h, rfl⟩

/-- After `evictLoop` with enough fuel, the size cap is satisfied. -/
theorem evictLoop_size (fuel : Nat) (st : CacheState)
    (hfuel : st.cache.length ≤ fuel)
    (hc : st.cache_count = st.cache.length)
    (hs : st.cache_size = st.cache.sum) :
    (evictLoop fuel st).cache_size * SEGMENT_CACHE_FRACTION ≤
      st.peak_size := by
  induction fuel generalizing st with
  | zero =>
    have hnil : st.cache = [] := List.length_eq_zero.mp (by omega)
    simp only [evictLoop]
    rw [hs, hnil]
    simp [SEGMENT_CACHE_FRACTION]
  | succ n ih =>
    simp only [evictLoop]
    split
    · rename_i hcond
      rcases heq : st.cache.getLast? with _ | s
      · have hnil : st.cache = [] := List.getLast?_eq_none_iff.mp heq
        rw [hs, hnil] at hcond
        simp [SEGMENT_CACHE_FRACTION] at hcond
      · simp only [segment_cache_evict, heq]
        obtain ⟨hl, hsum, hsub⟩ := getLast_removed_spec st.cache s heq
        exact ih { st with
          cache := st.cache.dropLast
          cache_count := st.cache_count - 1
          cache_size := st.cache_size - s }
          (by dsimp only; omega) (by dsimp only; omega) (by dsimp only; omega)
    · rename_i hcond
      omega

/-- `segment_cache_full`: the failing branch leaves the state alone with the
caps strict; the succeeding branch evicts to at most the size cap;
consistency and the peak are preserved. -/
theorem cache_full_spec (st : CacheState) (h : CacheWF st) :
    ((segment_cache_full st).2 = false →
      (segment_cache_full st).1 = st ∧
      st.cache_count < SEGMENT_CACHE_MAX ∧
      st.cache_size * SEGMENT_CACHE_FRACTION < st.peak_size) ∧
    ((segment_cache_full st).2 = true →
      (segment_cache_full st).1.cache_size * SEGMENT_CACHE_FRACTION ≤
        st.peak_size) ∧
    CacheWF (segment_cache_full st).1 ∧
    (segment_cache_full st).1.peak_size = st.peak_size := by
  simp only [segment_cache_full]
  split
  · rename_i hcond
    exact ⟨fun _ => ⟨rfl, hcond.1, hcond.2⟩,
      fun habs => absurd habs (by simp), h, rfl⟩
  · obtain ⟨hwf, hpeak⟩ := evictLoop_WF st.cache.length st h
    refine ⟨fun habs => absurd habs (by simp), fun _ => ?_, hwf, hpeak⟩
    exact evictLoop_size st.cache.length st le_rfl h.1 h.2.1

/-- `segment_cache_insert` preserves consistency and the peak. -/
theorem CacheWF_insert (st : CacheState) (s : Nat) (h : CacheWF st) :
    CacheWF (segment_cache_insert st s).1 ∧
    (segment_cache_insert st s).1.peak_size = st.peak_size := by
  obtain ⟨hff, hft, hwf, hpeak⟩ := cache_full_spec st h
  simp only [segment_cache_insert]
  rcases hfull : segment_cache_full st with ⟨st', b⟩
  rw [hfull] at hff hft hwf hpeak
  cases b with
  | true => exact ⟨hwf, hpeak⟩
  | false =>
    have hst : st' = st := (hff rfl).1
    obtain ⟨-, hcount, hsize⟩ := hff rfl
    subst hst
    have hwf2 : CacheWF st' := hwf
    obtain ⟨hc, hs, hsort, hcap⟩ := hwf2
    refine ⟨⟨?_, ?_, ?_, ?_⟩, ?_⟩
    · dsimp only
      rw [insertSorted_length]
      omega
    · dsimp only
      rw [insertSorted_sum]
      omega
    · exact insertSorted_sorted s _ hsort
    · dsimp only
      simp only [SEGMENT_CACHE_MAX] at hcount ⊢
      omega
    · exact hpeak

/-- `collectLoop` preserves consistency and the peak. -/
theorem collectLoop_WF (fuel : Nat) (st : CacheState) (h : CacheWF st) :
    CacheWF (collectLoop fuel st) ∧
    (collectLoop fuel st).peak_size = st.peak_size := by
  induction fuel generalizing st with
  | zero => exact ⟨h, rfl⟩
  | succ n ih =>
    simp only [collectLoop]
    split
    · exact ⟨h, rfl⟩
    · rename_i s rest heq
      obtain ⟨hc, hs, hsort, hcap⟩ := h
      obtain ⟨hl, hsum, hsub⟩ := removeFirstGe_spec 0 st.cache _ _ heq
      have h' : CacheWF { st with
          cache := rest
          cache_count := st.cache_count - 1
          cache_size := st.cache_size - s } := by
        refine ⟨?_, ?_, ?_, ?_⟩
        · dsimp only
          omega
        · dsimp only
          omega
        · exact hsort.sublist hsub
        · dsimp only
          omega
      obtain ⟨hwf, hpeak⟩ := ih _ h'
      exact ⟨hwf, hpeak⟩

/-- A single cache operation preserves consistency and the peak. -/
theorem cacheStep_WF (st : CacheState) (op : CacheOp) (h : CacheWF st) :
    CacheWF (cacheStep st op) ∧ (cacheStep st op).peak_size = st.peak_size := by
  cases op with
  | insert s => exact CacheWF_insert st s h
  | find r => exact CacheWF_find st r h
  | evictOne => exact CacheWF_evict st h
  | collect => exact collectLoop_WF st.cache.length st h

/-- Any sequence of cache operations preserves consistency and the peak. -/
theorem runCache_WF (ops : List CacheOp) (st : CacheState) (h : CacheWF st) :
    CacheWF (runCache ops st) ∧ (runCache ops st).peak_size = st.peak_size := by
  induction ops generalizing st with
  | nil => exact ⟨h, rfl⟩
  | cons op rest ih =>
    obtain ⟨h1, h2⟩ := cacheStep_WF st op h
    obtain ⟨h3, h4⟩ := ih (cacheStep st op) h1
    simp only [runCache, List.foldl_cons] at *
    exact ⟨h3, by rw [h4, h2]⟩

/-- C5 counterexample: from the consistent state with empty cache and
`peak_size = 33`, two inserts of size-4 segments leave the cache at total
size 8, exceeding `peak_size / 8 = 4`, so the claimed invariant fails after
an insert; moreover from `⟨[4], 1, 4, 32⟩` an insert is declined (returns
false) even though the post-state satisfies the size cap, refuting
"dropped only if still over". -/
theorem C5_counterexample :
    claimCacheInv ⟨[], 0, 0, 33⟩ ∧ CacheWF ⟨[], 0, 0, 33⟩ ∧
    ¬claimCacheInv (runCache [CacheOp.insert 4, CacheOp.insert 4]
      ⟨[], 0, 0, 33⟩) ∧
    (segment_cache_insert ⟨[4], 1, 4, 32⟩ 4).2 = false ∧
    (segment_cache_insert ⟨[4], 1, 4, 32⟩ 4).1.cache_size *
      SEGMENT_CACHE_FRACTION ≤ (32 : Nat) := by
  exact ⟨by decide, by decide, by decide, by decide, by decide⟩

/-- C5 amended: on consistent states, every sequence of cache operations
keeps the cache at no more than `SEGMENT_CACHE_MAX` (32) segments (and
never changes `peak_size`); when `insert` declines a candidate it has first
evicted from the tail until `cache_size * SEGMENT_CACHE_FRACTION ≤
peak_size`, and the candidate is then dropped unconditionally; a candidate
is admitted exactly when, before insertion, the count is below 32 AND
`cache_size * 8 < peak_size`, and then both size and count grow by the
candidate. -/
theorem C5_cache_caps_amended (st : CacheState) (h : CacheWF st) :
    (∀ ops, CacheWF (runCache ops st) ∧
      (runCache ops st).cache_count ≤ SEGMENT_CACHE_MAX ∧
      (runCache ops st).peak_size = st.peak_size) ∧
    (∀ s, (segment_cache_insert st s).2 = false →
      (segment_cache_insert st s).1.cache_size * SEGMENT_CACHE_FRACTION ≤
        st.peak_size) ∧
    (∀ s, (segment_cache_insert st s).2 = true →
      st.cache_count < SEGMENT_CACHE_MAX ∧
      st.cache_size * SEGMENT_CACHE_FRACTION < st.peak_size ∧
      (segment_cache_insert st s).1.cache_size = st.cache_size + s ∧
      (segment_cache_insert st s).1.cache_count = st.cache_count + 1) := by
  refine ⟨?_, ?_, ?_⟩
  · intro ops
    obtain ⟨hwf, hpeak⟩ := runCache_WF ops st h
    exact ⟨hwf, hwf.2.2.2, hpeak⟩
  · intro s hfalse
    obtain ⟨hff, hft, hwf, hpeak⟩ := cache_full_spec st h
    simp only [segment_cache_insert] at hfalse ⊢
    rcases hfull : segment_cache_full st with ⟨st', b⟩
    rw [hfull] at hff hft hwf hpeak hfalse
    cases b with
    | true => exact hft rfl
    | false => simp at hfalse
  · intro s htrue
    obtain ⟨hff, hft, hwf, hpeak⟩ := cache_full_spec st h
    simp only [segment_cache_insert] at htrue ⊢
    rcases hfull : segment_cache_full st with ⟨st', b⟩
    rw [hfull] at hff hft hwf hpeak htrue
    cases b with
    | true => simp at htrue
    | false =>
      have hst : st' = st := (hff rfl).1
      obtain ⟨-, hcount, hsize⟩ := hff rfl
      subst hst
      exact ⟨hcount, hsize, rfl, rfl⟩

/-- C5 amended witness: a consistent two-segment cache with peak 200,
exercised by an insert, a find and a collect. -/
theorem C5_cache_caps_amended_witness :
    CacheWF ⟨[4, 8], 2, 12, 200⟩ ∧
    CacheWF (runCache [CacheOp.insert 4, CacheOp.find 5, CacheOp.collect]
      ⟨[4, 8], 2, 12, 200⟩) :=
  ⟨by decide,
    ((C5_cache_caps_amended ⟨[4, 8], 2, 12, 200⟩ (by decide)).1
      [CacheOp.insert 4, CacheOp.find 5, CacheOp.collect]).1⟩

/-! ### C10 -/

/-- C10 evaluation at the failing input: a single `_stat_increase` by 1 from
the all-zero state leaves `current = 1` (so `current` has reached 1) but
`peak = 0`, because `fetch_add` returned the pre-update value; the claimed
invariant `peak = max current ever reached` demands `peak = 1`. -/
theorem C10_peak_lags_current :
    (_stat_increase StatCount.zero 1).current = 1 ∧
    (_stat_increase StatCount.zero 1).allocated -
        (_stat_increase StatCount.zero 1).freed = 1 ∧
    (_stat_increase StatCount.zero 1).peak = 0 := by
  decide

end Mimalloc
